import Mathlib

/-!
Verification of the C++20 coroutine generator in this repository
(src/generator.h, namespace coro; demo producers in src/main.cpp).

Shallow embedding: a producer body is a step function over an explicit
local-variable state (one state per suspension point, as in the
state-machine reading of a coroutine body). The suspended execution
frame (coroutine frame + promise) holds that step function, the saved
locals, the promise member current_value (value-initialized before the
first yield), and the done flag. Resuming the frame runs the body until
the next co_yield (yield_value records the value, then suspend_always)
or until completion (return_void / falling off the end, then
final_suspend leaves the frame at its final suspend point with done()
true). The generator handle holds a nullable coroutine handle, modelled
as an Option of the frame; stateful C++ operations become explicit
state passing.
-/

namespace coro

/-- The coroutine frame together with its promise object:
`step` is the compiled producer body (one resumption step: either
co_yield a value and move to the next saved-locals state, or finish),
`state` the saved locals at the current suspension point,
`current_value` the promise member of the same name, and
`done` whether the frame rests at its final suspend point. -/
structure Frame (σ T : Type) where
  step : σ → Option (T × σ)
  state : σ
  current_value : T
  done : Bool

/-- promise_type.yield_value: stores the yielded value into
current_value (then suspend_always suspends the frame). -/
def Frame.yield_value (f : Frame σ T) (some_value : T) : Frame σ T :=
  { f with current_value := some_value }

/-- coroutine_handle::resume on a non-done frame: runs the producer body
from its current suspension point until the next co_yield (recording the
value via yield_value and suspending) or until completion (return_void;
final_suspend marks the frame done). -/
def Frame.resume (f : Frame σ T) : Frame σ T :=
  match f.step f.state with
  | some (v, s) => { (f.yield_value v) with state := s }
  | none => { f with done := true }

/-- The generator handle: a move-only owner of at most one coroutine
frame. `coro` is the nullable std::coroutine_handle member. -/
structure generator (σ T : Type) where
  coro : Option (Frame σ T)

/-- generator::next(): if the handle is null or the frame is done,
return false without resuming; otherwise resume the frame and report
whether it yielded again (true) or completed (false). Returns the
updated handle alongside the result (explicit state passing). -/
def generator.next (g : generator σ T) : Bool × generator σ T :=
  match g.coro with
  | none => (false, g)
  | some f =>
      if f.done then (false, g)
      else
        let f2 := f.resume
        (!f2.done, ⟨some f2⟩)

/-- generator::getValue(): an engaged optional holding the promise's
current_value when a frame is attached, nullopt otherwise. -/
def generator.getValue (g : generator σ T) : Option T :=
  match g.coro with
  | none => none
  | some f => some f.current_value

/-- Invoking a producer function: promise_type::get_return_object wires
a freshly allocated frame to a new handle, and initial_suspend
(suspend_always) leaves it suspended before the first statement of the
body; current_value is value-initialized (T current_value{}). -/
def mkGen [Inhabited T] (step : σ → Option (T × σ)) (s0 : σ) : generator σ T :=
  ⟨some ⟨step, s0, default, false⟩⟩

/-- Apply generator::next n times, keeping the threaded handle state. -/
def generator.advanceN (g : generator σ T) : Nat → generator σ T
  | 0 => g
  | n + 1 => (g.next.2).advanceN n

/-- Manually drive the generator as the demo consumers do
(while (iter.next()) use(iter.getValue())), collecting the values
fetched after each true-returning next; fuel bounds the loop so that
infinite producers stay definable. -/
def generator.drive (g : generator σ T) : Nat → List T
  | 0 => []
  | fuel + 1 =>
      let r := g.next
      if r.1 then
        match r.2.getValue with
        | some v => v :: r.2.drive fuel
        | none => []
      else []

/-- generator::iterator: holds a nullable coroutine handle `hdl`; a null
handle is the end-marker (end() returns iterator{nullptr}). -/
structure genIterator (σ T : Type) where
  hdl : Option (Frame σ T)

/-- iterator::getNext(): if a handle is held, resume it; when the frame
is then done, null the handle out so the iterator equals the end-marker. -/
def genIterator.getNext (it : genIterator σ T) : genIterator σ T :=
  match it.hdl with
  | none => it
  | some f =>
      let f2 := f.resume
      if f2.done then ⟨none⟩ else ⟨some f2⟩

/-- generator::begin(): a null or done frame gives the end-marker;
otherwise the iterator advances the frame once to position at the
first value. -/
def generator.begin (g : generator σ T) : genIterator σ T :=
  match g.coro with
  | none => ⟨none⟩
  | some f => if f.done then ⟨none⟩ else genIterator.getNext ⟨some f⟩

/-- generator::end(): the end-marker iterator{nullptr}. -/
def generator.endIter (_ : generator σ T) : genIterator σ T := ⟨none⟩

/-- A for-each consumer over the sequence adapter:
for (it = begin; it != end; ++it) visit(*it). operator* reads the
promise's current_value; operator++ is getNext. Fuel bounds the loop. -/
def genIterator.collect (it : genIterator σ T) : Nat → List T
  | 0 => []
  | fuel + 1 =>
      match it.hdl with
      | none => []
      | some f => f.current_value :: (genIterator.getNext ⟨some f⟩).collect fuel

/-- A straight-line producer body (no loop) that performs exactly the
yields listed: its saved-locals state is the list of values still to be
yielded; each resumption yields the head, and an empty list means the
body falls off the end (co_return). -/
def straightLineStep : List T → Option (T × List T)
  | [] => none
  | v :: rest => some (v, rest)

/-- The generator obtained by invoking a straight-line producer that
yields exactly the elements of vs in order. -/
def straightGen [Inhabited T] (vs : List T) : generator (List T) T :=
  mkGen straightLineStep vs

/-- Saved locals of the fibonacci producer of src/main.cpp, one
constructor per suspension point of its body:
atStart — suspended by initial_suspend, before `T j = 0`;
atFirstYield — suspended at `co_yield j`, locals ceiling, j, i saved;
atLoopYield — suspended at `co_yield i` inside the do-while, locals
ceiling, j, i saved. -/
inductive FibState where
  | atStart (ceiling : Nat)
  | atFirstYield (ceiling j i : Nat)
  | atLoopYield (ceiling j i : Nat)
deriving DecidableEq, Repr

/-- One resumption step of the fibonacci producer body
(src/main.cpp): T j = 0; T i = 1; co_yield j; if (ceiling > j)
do { co_yield i; T tmp = i; i += j; j = tmp; } while (i <= ceiling); -/
def fibStep : FibState → Option (Nat × FibState)
  | .atStart ceiling =>
      let j := 0
      let i := 1
      some (j, .atFirstYield ceiling j i)
  | .atFirstYield ceiling j i =>
      if ceiling > j then some (i, .atLoopYield ceiling j i)
      else none
  | .atLoopYield ceiling j i =>
      let tmp := i
      let i2 := i + j
      let j2 := tmp
      if i2 ≤ ceiling then some (i2, .atLoopYield ceiling j2 i2)
      else none

/-- Invoking the fibonacci producer with the given ceiling: allocates
the frame and returns the handle, suspended before the first statement. -/
def fibonacci (ceiling : Nat) : generator FibState Nat :=
  mkGen fibStep (.atStart ceiling)

/-- The fixed-buffer pmr allocator: `buf` is the base address of the
caller-owned region (addresses modelled as naturals), `buf_size` the
remaining byte capacity, `max_buf_size` the original capacity. -/
structure fixed_buffer_pmr_allocator where
  buf : Nat
  buf_size : Nat
  max_buf_size : Nat
deriving DecidableEq, Repr

/-- do_allocate: if the request exceeds the remaining capacity, throw
bad_alloc (none); otherwise decrement the remaining capacity by the
requested bytes and return `buf` — the code returns the member `buf`
itself, not an offset into it. -/
def fixed_buffer_pmr_allocator.do_allocate (a : fixed_buffer_pmr_allocator)
    (bytes : Nat) : Option (Nat × fixed_buffer_pmr_allocator) :=
  if bytes > a.buf_size then none
  else some (a.buf, { a with buf_size := a.buf_size - bytes })

/-- do_deallocate: accepted but a no-op; no capacity is reclaimed. -/
def fixed_buffer_pmr_allocator.do_deallocate (a : fixed_buffer_pmr_allocator)
    (_p : Nat) (_bytes : Nat) : fixed_buffer_pmr_allocator := a

/-- Move assignment `handles dst = std::move(handles src)` between
handle objects living at addresses in a store mapping each handle
address to the frame it owns. Mirrors generator::operator=(generator&&):
if (this != &other) { if (coro) coro.destroy(); coro = other.coro;
other.coro = nullptr; }. Returns the updated store and the list of
frames destroyed during the assignment. -/
def moveAssign (st : Nat → Option (Frame σ T)) (dst src : Nat) :
    (Nat → Option (Frame σ T)) × List (Frame σ T) :=
  if dst ≠ src then
    (fun a => if a = dst then st src else if a = src then none else st a,
     match st dst with
     | some f => [f]
     | none => [])
  else (st, [])

/-- Move construction generator(generator&& oth): the new handle takes
oth's frame and oth's handle is nulled. Returns (new handle's coro,
oth's coro after the move); no frame is destroyed. -/
def moveConstruct (oth : Option (Frame σ T)) :
    Option (Frame σ T) × Option (Frame σ T) :=
  (oth, none)

/-- A straight-line producer's generator mid-run: the pending yields are
vs and the promise currently holds cv. -/
def straightFrameGen [Inhabited T] (vs : List T) (cv : T) : generator (List T) T :=
  ⟨some ⟨straightLineStep, vs, cv, false⟩⟩

/-- A concrete two-handle store for witnesses: handle 0 owns a frame
about to yield 7, handle 1 owns a frame about to yield 9. -/
def exampleStore : Nat → Option (Frame (List Nat) Nat) :=
  fun a =>
    if a = 0 then some ⟨straightLineStep, [7], 0, false⟩
    else if a = 1 then some ⟨straightLineStep, [9], 0, false⟩
    else none

theorem straight_advanceN_get [Inhabited T] (vs : List T) (cv : T) :
    (∀ k, ∀ hk : k < vs.length,
        ((straightFrameGen vs cv).advanceN k).next.1 = true ∧
        ((straightFrameGen vs cv).advanceN (k + 1)).getValue = some (vs.get ⟨k, hk⟩)) ∧
    ((straightFrameGen vs cv).advanceN vs.length).next.1 = false := by
  induction vs generalizing cv with
  | nil =>
      refine ⟨fun k hk => absurd hk (Nat.not_lt_zero k), ?_⟩
      rfl
  | cons v rest ih =>
      have hnext : (straightFrameGen (v :: rest) cv).next = (true, straightFrameGen rest v) := rfl
      have hadv : ∀ n, (straightFrameGen (v :: rest) cv).advanceN (n + 1)
          = (straightFrameGen rest v).advanceN n := by
        intro n
        simp [generator.advanceN, hnext]
      refine ⟨?_, ?_⟩
      · intro k hk
        cases k with
        | zero =>
            refine ⟨by rw [show (straightFrameGen (v :: rest) cv).advanceN 0
              = straightFrameGen (v :: rest) cv from rfl, hnext], ?_⟩
            rw [hadv 0]
            rfl
        | succ j =>
            have hj : j < rest.length := Nat.lt_of_succ_lt_succ hk
            refine ⟨?_, ?_⟩
            · rw [hadv j]
              exact ((ih v).1 j hj).1
            · rw [hadv (j + 1)]
              exact ((ih v).1 j hj).2
      · rw [show (v :: rest).length = rest.length + 1 from rfl, hadv rest.length]
        exact (ih v).2

/-- C1: for every producer body that performs exactly N yields and
contains no loop (modelled as the straight-line producer yielding the
elements of vs, N = vs.length), the first N calls to next() return true,
the (N+1)-th returns false, and getValue() after the k-th true-returning
next() equals the k-th yielded value. -/
theorem straight_line_producer_spec (T : Type) [Inhabited T] (vs : List T) :
    (∀ k, ∀ hk : k < vs.length,
        ((straightGen vs).advanceN k).next.1 = true ∧
        ((straightGen vs).advanceN (k + 1)).getValue = some (vs.get ⟨k, hk⟩)) ∧
    ((straightGen vs).advanceN vs.length).next.1 = false :=
  straight_advanceN_get vs default

/-- Witness for C1 at vs = [3, 5, 7], k = 1. -/
theorem straight_line_producer_spec_witness :
    ((straightGen ([3, 5, 7] : List Nat)).advanceN 1).next.1 = true ∧
    ((straightGen ([3, 5, 7] : List Nat)).advanceN 2).getValue = some 5 ∧
    ((straightGen ([3, 5, 7] : List Nat)).advanceN 3).next.1 = false := by
  refine ⟨?_, ?_, ?_⟩
  · exact ((straight_line_producer_spec Nat [3, 5, 7]).1 1 (by decide)).1
  · exact ((straight_line_producer_spec Nat [3, 5, 7]).1 1 (by decide)).2
  · exact (straight_line_producer_spec Nat [3, 5, 7]).2

/-- C2 counterexample: a freshly created, never-advanced handle with a
live frame does NOT report absent: getValue() returns an engaged
optional holding the value-initialized current_value (some 0 for Nat),
not nullopt, because getValue only tests the handle for null, not
whether a yield has happened. -/
theorem fresh_handle_getValue_not_absent :
    (straightGen ([3] : List Nat)).getValue = some 0 ∧
    (straightGen ([3] : List Nat)).getValue ≠ none := by
  exact ⟨rfl, by decide⟩

/-- C2 amended: a handle with no attached frame reports absent
(nullopt) and raises no fault; a freshly created, never-advanced handle
with a live frame reports a present value holding the value-initialized
current_value (T current_value{}), not absent, and its frame is not yet
terminal. -/
theorem getValue_absent_only_when_no_frame (σ T : Type) [Inhabited T]
    (step : σ → Option (T × σ)) (s0 : σ) :
    generator.getValue (⟨none⟩ : generator σ T) = none ∧
    (mkGen step s0).getValue = some default ∧
    (∃ f, (mkGen step s0).coro = some f ∧ f.done = false) := by
  exact ⟨rfl, rfl, ⟨⟨step, s0, default, false⟩, rfl, rfl⟩⟩

/-- Witness for the amended C2 at the straight-line producer of [3]. -/
theorem getValue_absent_only_when_no_frame_witness :
    generator.getValue (⟨none⟩ : generator (List Nat) Nat) = none ∧
    (mkGen straightLineStep ([3] : List Nat)).getValue = some 0 :=
  ⟨(getValue_absent_only_when_no_frame (List Nat) Nat straightLineStep [3]).1,
   (getValue_absent_only_when_no_frame (List Nat) Nat straightLineStep [3]).2.1⟩

/-- C5: calling next() on a handle whose frame is absent or terminal
returns false without resuming the frame (the handle state is
unchanged, so no producer work happens), and repeating next()
arbitrarily many times keeps returning false. -/
theorem next_terminal_noop (σ T : Type) (g : generator σ T)
    (h : g.coro = none ∨ ∃ f, g.coro = some f ∧ f.done = true) :
    ∀ k, (g.advanceN k).next = (false, g.advanceN k) ∧ g.advanceN k = g := by
  have hnext : g.next = (false, g) := by
    rcases h with hn | ⟨f, hf, hd⟩
    · simp [generator.next, hn]
    · simp [generator.next, hf, hd]
  intro k
  have hfix : g.advanceN k = g := by
    induction k with
    | zero => rfl
    | succ n ihn =>
        have hstep : g.advanceN (n + 1) = (g.next.2).advanceN n := rfl
        rw [hstep, hnext]
        exact ihn
  refine ⟨?_, hfix⟩
  rw [hfix]
  exact hnext

/-- Witness for C5: an empty handle (as left behind by a move),
advanced twice, still reports false and is unchanged. -/
theorem next_terminal_noop_witness :
    ((⟨none⟩ : generator (List Nat) Nat).advanceN 2).next
      = (false, (⟨none⟩ : generator (List Nat) Nat).advanceN 2) ∧
    ((⟨none⟩ : generator (List Nat) Nat).advanceN 2 : generator (List Nat) Nat)
      = ⟨none⟩ :=
  next_terminal_noop (List Nat) Nat ⟨none⟩ (Or.inl rfl) 2

/-- C6: invoking a producer executes none of its body: the returned
handle holds a frame still at the initial state s0 with the
value-initialized current_value and not done (lazy start), and the
first next() performs exactly the first resumption step of the body:
if the body first yields (v, s1) that next() returns true leaving the
frame at s1 with current_value v, and if the body completes without
yielding that next() returns false leaving the frame done. -/
theorem lazy_start_spec (σ T : Type) [Inhabited T]
    (step : σ → Option (T × σ)) (s0 : σ) :
    (mkGen step s0).coro = some ⟨step, s0, default, false⟩ ∧
    (∀ v s1, step s0 = some (v, s1) →
        (mkGen step s0).next = (true, ⟨some ⟨step, s1, v, false⟩⟩)) ∧
    (step s0 = none →
        (mkGen step s0).next = (false, ⟨some ⟨step, s0, default, true⟩⟩)) := by
  refine ⟨rfl, ?_, ?_⟩
  · intro v s1 hstep
    simp [mkGen, generator.next, Frame.resume, Frame.yield_value, hstep]
  · intro hstep
    simp [mkGen, generator.next, Frame.resume, hstep]

/-- Witness for C6 at the straight-line producer of [3]. -/
theorem lazy_start_spec_witness :
    (mkGen straightLineStep ([3] : List Nat)).coro
      = some ⟨straightLineStep, [3], 0, false⟩ ∧
    (mkGen straightLineStep ([3] : List Nat)).next
      = (true, ⟨some ⟨straightLineStep, [], 3, false⟩⟩) :=
  ⟨(lazy_start_spec (List Nat) Nat straightLineStep [3]).1,
   (lazy_start_spec (List Nat) Nat straightLineStep [3]).2.1 3 [] rfl⟩

/-- C9: the fibonacci producer of src/main.cpp invoked with ceiling 10,
driven by the manual consumer protocol, yields exactly 0, 1, 1, 2, 3,
5, 8 (the first seven next() calls return true with those values read
after each), and the 8th next() call returns false. -/
theorem fibonacci_ceiling10_spec :
    (fibonacci 10).drive 8 = [0, 1, 1, 2, 3, 5, 8] ∧
    ((fibonacci 10).advanceN 7).next.1 = false := by
  exact ⟨by decide, by decide⟩

/-- C10: move-assigning a handle to itself is a no-op: the
self-assignment guard leaves every handle owning its same frame and
destroys nothing. -/
theorem moveAssign_self_noop (σ T : Type) (st : Nat → Option (Frame σ T))
    (h : Nat) :
    moveAssign st h h = (st, []) := by
  simp [moveAssign]

/-- Witness for C10 at the concrete store, handle 1 assigned to itself. -/
theorem moveAssign_self_noop_witness :
    moveAssign exampleStore 1 1 = (exampleStore, []) :=
  moveAssign_self_noop (List Nat) Nat exampleStore 1

/-- C4: move assignment between distinct handle objects transfers the
frame: the destination ends up owning exactly the source's frame (so
driving it yields exactly what driving the source would have yielded
from where it left off), the source becomes empty (next() false,
getValue() absent), and a live frame previously owned by the
destination is torn down by the assignment (while an empty destination
destroys nothing); move construction likewise transfers the frame and
empties the source without destroying anything. -/
theorem moveAssign_transfer_spec (σ T : Type) (st : Nat → Option (Frame σ T))
    (dst src : Nat) (hne : dst ≠ src) :
    (moveAssign st dst src).1 dst = st src ∧
    (∀ n, (generator.mk ((moveAssign st dst src).1 dst)).drive n
        = (generator.mk (st src)).drive n) ∧
    (moveAssign st dst src).1 src = none ∧
    (generator.mk ((moveAssign st dst src).1 src)).next
      = (false, generator.mk ((moveAssign st dst src).1 src)) ∧
    (generator.mk ((moveAssign st dst src).1 src)).getValue = none ∧
    (∀ f, st dst = some f → (moveAssign st dst src).2 = [f]) ∧
    (st dst = none → (moveAssign st dst src).2 = []) ∧
    (moveConstruct (st src)).1 = st src ∧
    (moveConstruct (st src)).2 = none := by
  have h1 : (moveAssign st dst src).1 dst = st src := by
    simp [moveAssign, hne]
  have h2 : (moveAssign st dst src).1 src = none := by
    simp [moveAssign, hne, Ne.symm hne]
  refine ⟨h1, ?_, h2, ?_, ?_, ?_, ?_, rfl, rfl⟩
  · intro n
    rw [h1]
  · rw [h2]
    rfl
  · rw [h2]
    rfl
  · intro f hf
    simp [moveAssign, hne, hf]
  · intro hf
    simp [moveAssign, hne, hf]

/-- Witness for C4 at the concrete store, dst = 0, src = 1. -/
theorem moveAssign_transfer_spec_witness :
    (moveAssign exampleStore 0 1).1 0 = exampleStore 1 ∧
    (moveAssign exampleStore 0 1).1 1 = none ∧
    (moveAssign exampleStore 0 1).2 = [⟨straightLineStep, [7], 0, false⟩] :=
  ⟨(moveAssign_transfer_spec (List Nat) Nat exampleStore 0 1 (by decide)).1,
   (moveAssign_transfer_spec (List Nat) Nat exampleStore 0 1 (by decide)).2.2.1,
   (moveAssign_transfer_spec (List Nat) Nat exampleStore 0 1 (by decide)).2.2.2.2.2.1
     ⟨straightLineStep, [7], 0, false⟩ rfl⟩

/-- C7: a fixed-buffer allocation of b bytes succeeds exactly when
b ≤ remaining capacity, in which case remaining capacity becomes
remaining − b and the returned pointer is the buffer member (an address
in the caller-owned region); when b exceeds remaining it reports
out-of-memory; deallocation is accepted but a no-op; a successful
allocation never increases the remaining capacity. -/
theorem do_allocate_spec (a : fixed_buffer_pmr_allocator) (bytes p : Nat) :
    ((a.do_allocate bytes).isSome ↔ bytes ≤ a.buf_size) ∧
    (bytes ≤ a.buf_size →
        a.do_allocate bytes
          = some (a.buf, ⟨a.buf, a.buf_size - bytes, a.max_buf_size⟩)) ∧
    (a.buf_size < bytes → a.do_allocate bytes = none) ∧
    a.do_deallocate p bytes = a ∧
    (∀ q a2, a.do_allocate bytes = some (q, a2) →
        q = a.buf ∧ a2.buf_size ≤ a.buf_size) := by
  have halloc_le : bytes ≤ a.buf_size →
      a.do_allocate bytes
        = some (a.buf, ⟨a.buf, a.buf_size - bytes, a.max_buf_size⟩) := by
    intro hb
    unfold fixed_buffer_pmr_allocator.do_allocate
    rw [if_neg (by omega)]
  have halloc_gt : a.buf_size < bytes → a.do_allocate bytes = none := by
    intro hb
    unfold fixed_buffer_pmr_allocator.do_allocate
    rw [if_pos hb]
  refine ⟨?_, halloc_le, halloc_gt, rfl, ?_⟩
  · constructor
    · intro hs
      by_contra hb
      rw [halloc_gt (by omega)] at hs
      simp at hs
    · intro hb
      rw [halloc_le hb]
      rfl
  · intro q a2 heq
    by_cases hb : bytes ≤ a.buf_size
    · rw [halloc_le hb] at heq
      have hq : q = a.buf ∧ a2 = ⟨a.buf, a.buf_size - bytes, a.max_buf_size⟩ := by
        have hqa := Option.some.inj heq
        exact ⟨((Prod.mk.injEq _ _ _ _ ▸ hqa).1).symm, ((Prod.mk.injEq _ _ _ _ ▸ hqa).2).symm⟩
      refine ⟨hq.1, ?_⟩
      rw [hq.2]
      exact Nat.sub_le _ _
    · rw [halloc_gt (by omega)] at heq
      exact absurd heq (by simp)

/-- Witness for C7 at a 64-byte buffer based at address 0 with an
8-byte request. -/
theorem do_allocate_spec_witness :
    (fixed_buffer_pmr_allocator.mk 0 64 64).do_allocate 8
      = some (0, fixed_buffer_pmr_allocator.mk 0 56 64) ∧
    (fixed_buffer_pmr_allocator.mk 0 64 64).do_deallocate 0 8
      = fixed_buffer_pmr_allocator.mk 0 64 64 :=
  ⟨(do_allocate_spec ⟨0, 64, 64⟩ 8 0).2.1 (by decide),
   (do_allocate_spec ⟨0, 64, 64⟩ 8 0).2.2.2.1⟩

/-- C3: the code slip behind this claim: do_allocate always returns the
member buf itself, never offset by earlier allocations, so two
successful 8-byte frame allocations out of a 64-byte buffer (well under
capacity) hand back the SAME address — constructing the second
generator's frame there overwrites the first generator's frame, so
later successful allocations do not leave previously created
generators unaffected. -/
theorem do_allocate_aliasing_bug :
    ∃ p1 a1 p2 a2,
      (fixed_buffer_pmr_allocator.mk 0 64 64).do_allocate 8 = some (p1, a1) ∧
      a1.do_allocate 8 = some (p2, a2) ∧
      p2 = p1 ∧ 8 + 8 ≤ 64 :=
  ⟨0, ⟨0, 56, 64⟩, 0, ⟨0, 48, 64⟩, by decide, by decide, rfl, by decide⟩

theorem collect_after_getNext (σ T : Type) :
    ∀ (fuel : Nat) (f : Frame σ T), f.done = false →
      (genIterator.getNext ⟨some f⟩).collect fuel
        = (generator.mk (some f)).drive fuel := by
  intro fuel
  induction fuel with
  | zero =>
      intro f hf
      cases hit : genIterator.getNext (⟨some f⟩ : genIterator σ T) with
      | mk hdl => cases hdl <;> rfl
  | succ m ihm =>
      intro f hf
      by_cases hd : (f.resume).done = true
      · have hit : genIterator.getNext (⟨some f⟩ : genIterator σ T) = ⟨none⟩ := by
          simp [genIterator.getNext, hd]
        have hnext : (generator.mk (some f) : generator σ T).next
            = (false, ⟨some f.resume⟩) := by
          simp [generator.next, hf, hd]
        rw [hit]
        simp [genIterator.collect, generator.drive, hnext]
      · have hdf : (f.resume).done = false := by
          simpa using hd
        have hit : genIterator.getNext (⟨some f⟩ : genIterator σ T)
            = ⟨some f.resume⟩ := by
          simp [genIterator.getNext, hdf]
        have hnext : (generator.mk (some f) : generator σ T).next
            = (true, ⟨some f.resume⟩) := by
          simp [generator.next, hf, hdf]
        rw [hit]
        have hlhs : (genIterator.mk (some f.resume) : genIterator σ T).collect (m + 1)
            = (f.resume).current_value
              :: (genIterator.getNext ⟨some f.resume⟩).collect m := rfl
        have hrhs : (generator.mk (some f.resume) : generator σ T).getValue
            = some (f.resume).current_value := rfl
        rw [hlhs]
        simp [generator.drive, hnext, hrhs]
        exact ihm f.resume hdf

/-- C8: iterating a generator through the sequence adapter visits
exactly the same values, in the same order, as manually driving
next()/getValue() on the same generator until next() returns false
(both runs bounded by the same fuel); begin() positions by advancing
the frame once, an increment whose resumption lands on a terminal frame
makes the iterator equal the end-marker, and end() is the null-handle
end-marker. -/
theorem iterator_refines_manual_drive (σ T : Type) (g : generator σ T)
    (fuel : Nat) :
    (g.begin).collect fuel = g.drive fuel ∧
    (∀ f : Frame σ T, (f.resume).done = true →
        genIterator.getNext ⟨some f⟩ = g.endIter) ∧
    g.endIter = ⟨none⟩ := by
  refine ⟨?_, ?_, rfl⟩
  · obtain ⟨c⟩ := g
    cases c with
    | none =>
        cases fuel with
        | zero => rfl
        | succ m => rfl
    | some f =>
        by_cases hf : f.done = true
        · have hb : (generator.mk (some f) : generator σ T).begin = ⟨none⟩ := by
            simp [generator.begin, hf]
          have hnext : (generator.mk (some f) : generator σ T).next
              = (false, generator.mk (some f)) := by
            simp [generator.next, hf]
          rw [hb]
          cases fuel with
          | zero => rfl
          | succ m => simp [genIterator.collect, generator.drive, hnext]
        · have hff : f.done = false := by
            simpa using hf
          have hb : (generator.mk (some f) : generator σ T).begin
              = genIterator.getNext ⟨some f⟩ := by
            simp [generator.begin, hff]
          rw [hb]
          exact collect_after_getNext σ T fuel f hff
  · intro f hfr
    simp [genIterator.getNext, hfr, generator.endIter]

/-- Witness for C8 at the straight-line producer of [4] with fuel 3;
the terminal-increment conjunct instantiated at the frame left after
the only yield. -/
theorem iterator_refines_manual_drive_witness :
    ((straightGen ([4] : List Nat)).begin).collect 3
      = (straightGen ([4] : List Nat)).drive 3 ∧
    genIterator.getNext ⟨some ⟨straightLineStep, ([] : List Nat), 4, false⟩⟩
      = (straightGen ([4] : List Nat)).endIter :=
  ⟨(iterator_refines_manual_drive (List Nat) Nat (straightGen [4]) 3).1,
   (iterator_refines_manual_drive (List Nat) Nat (straightGen [4]) 3).2.1
     ⟨straightLineStep, [], 4, false⟩ (by decide)⟩

end coro
